import Mathlib

/-!
Shallow embedding of the GitHub sync script of this repository
(scripts/sync-github.ts together with the types of src/types.ts), and proofs
of the specified properties of its components: the tag normalizer, the slug
builder, the readme URL rewriter, the retrying fetch client, the per-entry
item fetcher and the sync orchestrator.

Strings are modelled by Lean strings; character-level passes (lowercasing,
trimming, character-class replacement) act on the underlying character list.
The ASCII fragment of the JavaScript string primitives is modelled: this is
the fragment the script's regular expressions and tag alphabet live in.
-/

namespace GithubSync

/-- Character code as a natural number. -/
def charCode (c : Char) : Nat := c.toNat

/-- ASCII uppercase letter test, the fragment of toLowerCase that can change
a character into the tag alphabet. -/
def isAsciiUpper (c : Char) : Bool := 65 ≤ charCode c && charCode c ≤ 90

/-- Model of JavaScript toLowerCase on one character (ASCII fragment):
uppercase letters are shifted down by 32, everything else is unchanged. -/
def jsLowerChar (c : Char) : Char :=
  if isAsciiUpper c then Char.ofNat (charCode c + 32) else c

/-- Whitespace removed by JavaScript trim (ASCII controls, space, NBSP and
the BOM). -/
def jsIsSpace (c : Char) : Bool :=
  charCode c == 9 || charCode c == 10 || charCode c == 11 || charCode c == 12 ||
  charCode c == 13 || charCode c == 32 || charCode c == 160 || charCode c == 65279

/-- Model of JavaScript trim: drop whitespace from both ends. -/
def trimChars (l : List Char) : List Char :=
  ((l.dropWhile jsIsSpace).reverse.dropWhile jsIsSpace).reverse

/-- Membership in the character class [a-z0-9-] of the tag regular
expressions. -/
def isTagChar (c : Char) : Bool :=
  (97 ≤ charCode c && charCode c ≤ 122) ||
  (48 ≤ charCode c && charCode c ≤ 57) ||
  charCode c == 45

/-- One step of the character-class replacement (regex [^a-z0-9-] replaced
globally by "-"): a character outside the class becomes a hyphen. -/
def hyphenizeChar (c : Char) : Char := if isTagChar c then c else '-'

/-- Model of the hyphen-run replacement (regex -+ replaced globally by "-"):
collapse every run of hyphens to a single hyphen. -/
def collapseHyphens : List Char → List Char
  | [] => []
  | [c] => [c]
  | c1 :: c2 :: rest =>
    if c1 = '-' && c2 = '-' then collapseHyphens (c2 :: rest)
    else c1 :: collapseHyphens (c2 :: rest)

/-- Remove a single leading hyphen when present (the leading alternative of the
edge-hyphen stripping regex). -/
def dropOneLeadingHyphen (l : List Char) : List Char :=
  if l.head? = some '-' then l.tail else l

/-- Remove a single trailing hyphen when present (the trailing alternative of the
edge-hyphen stripping regex). -/
def dropOneTrailingHyphen (l : List Char) : List Char :=
  if l.getLast? = some '-' then l.dropLast else l

/-- Model of the edge-hyphen stripping regex: strip one leading and one
trailing hyphen. -/
def stripEdgeHyphens (l : List Char) : List Char :=
  dropOneTrailingHyphen (dropOneLeadingHyphen l)

/-- The per-tag normalization chain of normalizeTags:
toLowerCase, trim, replace non-class characters by hyphens, collapse hyphen
runs, strip one hyphen from each edge. -/
def normalizeTagChars (l : List Char) : List Char :=
  stripEdgeHyphens (collapseHyphens
    ((trimChars (l.map jsLowerChar)).map hyphenizeChar))

/-- The per-tag normalization chain on strings. -/
def normalizeTag (s : String) : String := String.mk (normalizeTagChars s.data)

/-- Insertion-order deduplication as performed by spreading a JavaScript Set:
the first occurrence of each element is kept. -/
def seenDedup (seen : List String) : List String → List String
  | [] => []
  | x :: xs =>
    if x ∈ seen then seenDedup seen xs
    else x :: seenDedup (x :: seen) xs

/-- Deduplication keeping first occurrences, [...new Set(l)]. -/
def dedupKeepFirst (l : List String) : List String := seenDedup [] l

/-- Lexicographic comparison of character lists by code point, the order
used by the default JavaScript Array.prototype.sort comparator on
strings. -/
def strLeChars : List Char → List Char → Bool
  | [], _ => true
  | _ :: _, [] => false
  | a :: as, b :: bs => if a = b then strLeChars as bs else charCode a < charCode b

/-- Lexicographic string order of the default JavaScript sort. -/
def strLe (a b : String) : Bool := strLeChars a.data b.data

/-- normalizeTags, from the source: concatenate topics and custom tags,
normalize each tag, deduplicate in insertion order, drop empty strings,
sort. -/
def normalizeTags (topics : List String) (customTags : List String) : List String :=
  let allTags := topics ++ customTags
  let normalized := allTags.map normalizeTag
  ((dedupKeepFirst normalized).filter (fun s => s ≠ "")).mergeSort strLe

/-- createSlug, from the source: lowercase owner-repo with every character
outside [a-z0-9-] replaced by a hyphen. -/
def createSlug (owner repo : String) : String :=
  String.mk (((owner ++ "-" ++ repo).data.map jsLowerChar).map hyphenizeChar)

/-- Absence of two adjacent hyphens, the invariant the hyphen-run collapse
establishes. -/
def noHyphenRun : List Char → Bool
  | [] => true
  | [_] => true
  | c1 :: c2 :: rest => !(c1 = '-' && c2 = '-') && noHyphenRun (c2 :: rest)

/-- Canonical shape of a character list produced by the per-tag chain: only
class characters, no hyphen run, and no hyphen at either edge. -/
def canonicalChars (l : List Char) : Bool :=
  l.all isTagChar && noHyphenRun l &&
  !(l.head? == some '-') && !(l.getLast? == some '-')

/-- Shape every emitted tag has: non-empty, matching [a-z0-9-]+, with no
leading or trailing hyphen. -/
def isNormalizedTag (s : String) : Bool :=
  !s.data.isEmpty && s.data.all isTagChar &&
  !(s.data.head? == some '-') && !(s.data.getLast? == some '-')

/-!
Readme URL rewriter. The source rewrites flat markdown text with three
global regex passes (markdown images, HTML img tags, markdown links); a
document is modelled as the list of the disjoint matches of those patterns
interleaved with plain text, and each pass maps the per-match replacer of
the source over the tokens of its shape. An image token carries the two
capture groups alt and url of the image regex; a link token the groups
text and url; an HTML img token its url group and the surrounding
attribute text.
-/

/-- One inline markdown token: plain text between matches, an image match,
an HTML img match, or a link match. -/
inductive MdInline where
  | text (s : String)
  | image (alt url : String)
  | himg (before url after : String)
  | link (txt url : String)
deriving DecidableEq

/-- A markdown document: the token list the three rewrite passes act on. -/
abbrev MdDoc := List MdInline

/-- Shape of the text a relative URL may carry after its path: nothing, or
a query string, or a fragment. -/
def suffixShape (sfx : List Char) : Bool :=
  match sfx with
  | [] => true
  | c :: _ => c = '?' || c = '#'

/-- Boolean prefix test used to model String.prototype.startsWith. -/
def startsWithChars (p : String) (l : List Char) : Bool := p.data.isPrefixOf l

/-- isAbsolute, from the source: scheme-prefixed, protocol-relative,
fragment-only or mailto URLs are left untouched. -/
def isAbsoluteUrl (url : List Char) : Bool :=
  startsWithChars "http://" url || startsWithChars "https://" url ||
  startsWithChars "//" url || startsWithChars "#" url ||
  startsWithChars "mailto:" url

/-- normalizePath, from the source: remove a leading "./" or a leading
"/". -/
def normalizePathChars (l : List Char) : List Char :=
  if startsWithChars "./" l then l.drop 2
  else if startsWithChars "/" l then l.drop 1
  else l

/-- url.split on the class [?#], first component: the longest prefix free of
query and fragment delimiters. -/
def splitBeforeQueryFrag (l : List Char) : List Char :=
  l.takeWhile (fun c => !(c = '?' || c = '#'))

/-- The raw-content base URL of the rewriter. -/
def rawContentBase (owner repo defaultBranch : String) : String :=
  "https://raw.githubusercontent.com/" ++ owner ++ "/" ++ repo ++ "/" ++ defaultBranch

/-- The browsable-file base URL of the rewriter. -/
def blobBase (owner repo defaultBranch : String) : String :=
  "https://github.com/" ++ owner ++ "/" ++ repo ++ "/blob/" ++ defaultBranch

/-- The rewritten target of a relative image or link url, from the source
replacer: the prefix before any query or fragment is path-normalized and
appended to the base, then the remainder of the url starting at the clean
path length (shifted by 2 when the url starts with "./") is appended. -/
def rewriteRelativeUrl (base : List Char) (url : List Char) : List Char :=
  let cleanPath := normalizePathChars (splitBeforeQueryFrag url)
  let suffix := url.drop (cleanPath.length + (if startsWithChars "./" url then 2 else 0))
  base ++ '/' :: (cleanPath ++ suffix)

/-- First pass: the markdown-image replacer applied to one token. -/
def mdImagePass (rawBase : List Char) (t : MdInline) : MdInline :=
  match t with
  | .image alt url =>
    if isAbsoluteUrl url.data then t
    else .image alt (String.mk (rewriteRelativeUrl rawBase url.data))
  | _ => t

/-- Second pass: the HTML-img replacer applied to one token; no query or
fragment splitting is performed here, the whole url is path-normalized. -/
def htmlImgPass (rawBase : List Char) (t : MdInline) : MdInline :=
  match t with
  | .himg before url after =>
    if isAbsoluteUrl url.data then t
    else .himg before (String.mk (rawBase ++ '/' :: normalizePathChars url.data)) after
  | _ => t

/-- Third pass: the markdown-link replacer applied to one token; anchors and
absolute urls are skipped, otherwise the same clean-path and suffix
computation as for images is applied against the blob base. -/
def mdLinkPass (blob : List Char) (t : MdInline) : MdInline :=
  match t with
  | .link txt url =>
    if isAbsoluteUrl url.data then t
    else if startsWithChars "#" url.data then t
    else .link txt (String.mk (rewriteRelativeUrl blob url.data))
  | _ => t

/-- rewriteReadmeUrls, from the source: the three global passes in source
order. -/
def rewriteReadmeUrls (markdown : MdDoc) (owner repo defaultBranch : String) : MdDoc :=
  let rawBase := (rawContentBase owner repo defaultBranch).data
  let blob := (blobBase owner repo defaultBranch).data
  ((markdown.map (mdImagePass rawBase)).map (htmlImgPass rawBase)).map (mdLinkPass blob)

/-!
HTTP fetch client. One run of githubFetch is modelled against an oracle
giving, for each attempt index, the classified outcome of that attempt's
underlying request: the rate-limit branch (403 with zero remaining quota),
the 304 branch, the 404 branch, a transient error (non-ok status or a
thrown network error, carrying its message), or a parsed success payload
with its optional new ETag. Backoff sleeps are recorded as the list of
delays in milliseconds, in order.
-/

/-- Retry ceiling of the source. -/
def MAX_RETRIES : Nat := 3

/-- First backoff delay of the source, in milliseconds. -/
def INITIAL_RETRY_DELAY_MS : Nat := 1000

/-- The classified outcome of one underlying request attempt. -/
inductive AttemptOutcome (α : Type) where
  | rateLimited
  | notModified
  | notFound
  | transientError (msg : String)
  | ok (data : Option α) (etag : Option String)

/-- Errors surfaced by githubFetch to its caller. -/
inductive FetchError where
  | rateLimited
  | notFound (endpoint : String)
  | transient (msg : String)
deriving DecidableEq

/-- The successful return shape of githubFetch. -/
structure FetchSuccess (α : Type) where
  data : Option α
  etag : Option String
  notModified : Bool

/-- The retry loop of githubFetch: remaining counts the attempts left out of
MAX_RETRIES, attempt is the current 0-based index, lastError the error of
the latest transient attempt. On a transient outcome before the final
attempt a backoff delay of INITIAL_RETRY_DELAY_MS * 2 ^ attempt is
recorded; terminal outcomes (rate limit, 404) and successes return at
once; an exhausted loop surfaces the last transient error. -/
def githubFetchAux {α : Type} (outcomes : Nat → AttemptOutcome α) (endpoint : String)
    (attempt remaining : Nat) (lastError : Option FetchError) :
    Except FetchError (FetchSuccess α) × List Nat :=
  match remaining with
  | 0 => (Except.error (lastError.getD (FetchError.transient "Unknown error")), [])
  | r + 1 =>
    match outcomes attempt with
    | .rateLimited => (Except.error FetchError.rateLimited, [])
    | .notModified => (Except.ok ⟨none, none, true⟩, [])
    | .notFound => (Except.error (FetchError.notFound endpoint), [])
    | .ok data etag => (Except.ok ⟨data, etag, false⟩, [])
    | .transientError msg =>
      let next := githubFetchAux outcomes endpoint (attempt + 1) r
        (some (FetchError.transient msg))
      if attempt < MAX_RETRIES - 1 then
        (next.1, (INITIAL_RETRY_DELAY_MS * 2 ^ attempt) :: next.2)
      else
        (next.1, next.2)

/-- githubFetch, from the source: the retry loop started at attempt 0 with
MAX_RETRIES attempts available. The optional conditional-request token
only shapes the outbound headers, so it appears as an (unused) argument of
the model; the oracle already reflects the server's response to it. -/
def githubFetch {α : Type} (outcomes : Nat → AttemptOutcome α) (endpoint : String)
    (_etag : Option String) : Except FetchError (FetchSuccess α) × List Nat :=
  githubFetchAux outcomes endpoint 0 MAX_RETRIES none

/-!
Data model, from src/types.ts. Nullable fields are options; the readme
payload of the readme endpoint is modelled as the already base64-decoded
markdown document (the transport encoding and the UTF-8 decode of the
source carry no information the sync logic inspects), with its encoding
and path fields kept verbatim.
-/

/-- GitHubRepoResponse, from the source types. -/
structure GitHubRepoResponse where
  name : String
  full_name : String
  description : Option String
  html_url : String
  homepage : Option String
  stargazers_count : Nat
  updated_at : String
  pushed_at : String
  default_branch : String

/-- GitHubTopicsResponse, from the source types. -/
structure GitHubTopicsResponse where
  names : List String

/-- GitHubReadmeResponse, from the source types; content is the decoded
markdown document. -/
structure GitHubReadmeResponse where
  content : MdDoc
  encoding : String
  path : String

/-- CacheEntry, from the source types; readme is stored as the (already
rewritten) markdown document. -/
structure CacheEntry where
  etag : Option String
  updatedAt : String
  metadata : GitHubRepoResponse
  topics : List String
  readme : MdDoc
  fetchedAt : String

/-- RepoConfig, from the source types; featured and customTags are optional
and defaulted at the destructuring in fetchRepo. -/
structure RepoConfig where
  owner : String
  repo : String
  featured : Option Bool
  customTags : Option (List String)

/-- Project, from the source types. -/
structure Project where
  slug : String
  title : String
  description : String
  owner : String
  repo : String
  tags : List String
  stars : Nat
  updatedAt : String
  homepage : Option String
  htmlUrl : String
  defaultBranch : String
  featured : Bool

/-- JavaScript a || b on a nullable string: null and the empty string fall
through to the default. -/
def jsOr (a : Option String) (b : String) : String :=
  match a with
  | none => b
  | some s => if s = "" then b else s

/-- JavaScript a || null on a nullable string: any falsy value is coerced
to null. -/
def jsOrNull (a : Option String) : Option String :=
  match a with
  | none => none
  | some s => if s = "" then none else some s

/-- JavaScript a || b on plain strings: the empty string falls through. -/
def jsOrStr (a b : String) : String :=
  if a = "" then b else a

/-- Metadata endpoint path of an entry. -/
def repoEndpoint (owner repo : String) : String :=
  "/repos/" ++ owner ++ "/" ++ repo

/-- Topics endpoint path of an entry. -/
def topicsEndpoint (owner repo : String) : String :=
  "/repos/" ++ owner ++ "/" ++ repo ++ "/topics"

/-- Readme endpoint path of an entry. -/
def readmeEndpoint (owner repo : String) : String :=
  "/repos/" ++ owner ++ "/" ++ repo ++ "/readme"

/-- Outcome oracles for the up-to-three endpoints one fetchRepo call can
hit, each indexed by attempt number. -/
structure RepoNetwork where
  metaOutcomes : Nat → AttemptOutcome GitHubRepoResponse
  topicsOutcomes : Nat → AttemptOutcome GitHubTopicsResponse
  readmeOutcomes : Nat → AttemptOutcome GitHubReadmeResponse

/-- Observable result of one fetchRepo call: the returned value (none on
the caught failure path), the Cache Record written (none when no write
happened), and the endpoints requested, in order. -/
structure FetchRepoOutcome where
  result : Option (Project × MdDoc)
  cacheWrite : Option CacheEntry
  calls : List String

/-- The placeholder readme substituted when the readme fetch fails or
carries no data. -/
def placeholderReadme (repo : String) : MdDoc :=
  [MdInline.text ("# " ++ repo ++ "\n\nNo README available.")]

/-- fetchRepo, from the source: read the cache, request metadata with the
cached ETag; on 304 with a cache present reuse the cached metadata,
topics and readme with no write; on fresh data fetch topics (a throwing
topics fetch escapes to the outer catch and fails the entry; a null
payload yields the empty list), fetch the readme inside its own
try-catch (any failure or null payload yields the placeholder), rewrite
it, and persist a fresh cache record stamped now; otherwise throw,
caught by the outer catch. The project record is then built from the
resolved metadata and topics. -/
def fetchRepo (config : RepoConfig) (cached : Option CacheEntry) (net : RepoNetwork)
    (now : String) : FetchRepoOutcome :=
  let owner := config.owner
  let repo := config.repo
  let featured := config.featured.getD false
  let customTags := config.customTags.getD []
  let slug := createSlug owner repo
  let metaResult := githubFetch net.metaOutcomes (repoEndpoint owner repo)
    (cached.bind (fun c => c.etag))
  match metaResult.1 with
  | Except.error _ => ⟨none, none, [repoEndpoint owner repo]⟩
  | Except.ok meta =>
    if h : meta.notModified = true ∧ cached.isSome then
      -- cache-hit path: reuse the stored record, no write, no further calls
      let c := cached.get h.2
      let normalizedTags := normalizeTags c.topics customTags
      let project : Project :=
        { slug := slug
          title := c.metadata.name
          description := jsOr c.metadata.description ""
          owner := owner
          repo := repo
          tags := normalizedTags
          stars := c.metadata.stargazers_count
          updatedAt := jsOrStr c.metadata.pushed_at c.metadata.updated_at
          homepage := jsOrNull c.metadata.homepage
          htmlUrl := c.metadata.html_url
          defaultBranch := c.metadata.default_branch
          featured := featured }
      ⟨some (project, c.readme), none, [repoEndpoint owner repo]⟩
    else
      match meta.data with
      | none =>
        -- "No data received": thrown and caught by the outer catch
        ⟨none, none, [repoEndpoint owner repo]⟩
      | some metadata =>
        let topicsResult := githubFetch net.topicsOutcomes (topicsEndpoint owner repo) none
        match topicsResult.1 with
        | Except.error _ =>
          -- a thrown topics fetch escapes to the outer catch: entry fails
          ⟨none, none, [repoEndpoint owner repo, topicsEndpoint owner repo]⟩
        | Except.ok topicsData =>
          let topics := ((topicsData.data.map (fun t => t.names)).getD [])
          let readmeResult := githubFetch net.readmeOutcomes (readmeEndpoint owner repo) none
          let readme :=
            match readmeResult.1 with
            | Except.error _ => placeholderReadme repo
            | Except.ok rd =>
              match rd.data with
              | some payload =>
                rewriteReadmeUrls payload.content owner repo metadata.default_branch
              | none => placeholderReadme repo
          let cacheEntry : CacheEntry :=
            { etag := meta.etag
              updatedAt := metadata.updated_at
              metadata := metadata
              topics := topics
              readme := readme
              fetchedAt := now }
          let normalizedTags := normalizeTags topics customTags
          let project : Project :=
            { slug := slug
              title := metadata.name
              description := jsOr metadata.description ""
              owner := owner
              repo := repo
              tags := normalizedTags
              stars := metadata.stargazers_count
              updatedAt := jsOrStr metadata.pushed_at metadata.updated_at
              homepage := jsOrNull metadata.homepage
              htmlUrl := metadata.html_url
              defaultBranch := metadata.default_branch
              featured := featured }
          ⟨some (project, readme), some cacheEntry,
            [repoEndpoint owner repo, topicsEndpoint owner repo, readmeEndpoint owner repo]⟩

/-!
Sync orchestrator, from main. The fan-out over the catalog entries is
modelled as a map of fetchRepo over the entries together with each
entry's cache state and network oracle (the worker pool only bounds
in-flight requests; results are joined before any output is written, so
the aggregate is order-preserving and independent of scheduling). The
profile readme and the contribution calendar are produced by functions
that catch every failure internally and return an optional record; their
returned values enter the model as inputs. The exit status is 1 when the
failure tally is positive, otherwise the process ends normally with
status 0.
-/

/-- One catalog entry with its cache state and its network oracle. -/
structure EntryEnv where
  config : RepoConfig
  cached : Option CacheEntry
  net : RepoNetwork

/-- The fan-out: every entry driven through fetchRepo. -/
def runEntries (entries : List EntryEnv) (now : String) : List FetchRepoOutcome :=
  entries.map (fun e => fetchRepo e.config e.cached e.net now)

/-- The failure tally of a run: fetchRepo increments failCount exactly when
it returns null. -/
def failCountOf (outs : List FetchRepoOutcome) : Nat :=
  (outs.filter (fun o => o.result.isNone)).length

/-- The sort comparator of main as an integer-valued compare: featured
entries first, then star count descending. -/
def projectCmp (a b : Project) : Int :=
  if a.featured ≠ b.featured then (if a.featured then -1 else 1)
  else (b.stars : Int) - (a.stars : Int)

/-- The non-positive-comparator order induced by projectCmp, under which a
stable sort realizes the comparator's ordering. -/
def projectLe (a b : Project) : Bool := projectCmp a b ≤ 0

/-- The sort of main over the successful results. -/
def sortResults (l : List (Project × MdDoc)) : List (Project × MdDoc) :=
  l.mergeSort (fun a b => projectLe a.1 b.1)

/-- The union of all tags of main: Set-insertion in traversal order,
then sorted. -/
def collectAllTags (projects : List Project) : List String :=
  (dedupKeepFirst (projects.map (fun p => p.tags)).flatten).mergeSort strLe

/-- Profile record, from the source types. -/
structure Profile where
  username : String
  readme : MdDoc
  fetchedAt : String

/-- Contributions index, from the source types (daily series elided to the
fields the orchestrator reports). -/
structure ContributionsIndex where
  totalContributions : Nat
  username : String
  fetchedAt : String

/-- The observable outputs of one completed run of main: the exit status,
the sorted project list of the index artifact, the sorted tag union, the
per-entry content files in written order (by slug), and the two auxiliary
artifacts passed through from their always-catching fetchers. -/
structure MainRunOutput where
  exitCode : Nat
  projects : List Project
  allTags : List String
  contentSlugs : List String
  profileJson : Option Profile
  contributionsJson : Option ContributionsIndex

/-- main, from the source, for a run that completes the sync: drive all
entries, drop failures, sort by the featured-then-stars comparator, build
the index and the per-entry content files, record the auxiliary
artifacts, and exit non-zero exactly when the failure tally is
positive. -/
def mainRun (entries : List EntryEnv) (now : String)
    (profileResult : Option Profile) (contributionsResult : Option ContributionsIndex) :
    MainRunOutput :=
  let results := runEntries entries now
  let successfulResults := results.filterMap (fun o => o.result)
  let sorted := sortResults successfulResults
  let projects := sorted.map (fun r => r.1)
  let allTags := collectAllTags projects
  { exitCode := if 0 < failCountOf results then 1 else 0
    projects := projects
    allTags := allTags
    contentSlugs := projects.map (fun p => p.slug)
    profileJson := profileResult
    contributionsJson := contributionsResult }

/-!
Concrete sample data used to exercise the definitions at specific inputs.
-/

/-- A sample metadata payload: no description, an empty-string homepage, and
a pushed_at timestamp differing from updated_at. -/
def sampleMeta : GitHubRepoResponse :=
  { name := "r"
    full_name := "o/r"
    description := none
    html_url := "https://github.com/o/r"
    homepage := some ""
    stargazers_count := 3
    updated_at := "2024-01-01T00:00:00Z"
    pushed_at := "2024-02-02T00:00:00Z"
    default_branch := "main" }

/-- A sample catalog entry configuration. -/
def sampleConfig : RepoConfig :=
  { owner := "o", repo := "r", featured := none, customTags := some ["CLI"] }

/-- A sample stored cache record. -/
def sampleCache : CacheEntry :=
  { etag := some "E0"
    updatedAt := "2023-12-31T00:00:00Z"
    metadata := sampleMeta
    topics := ["Topic A"]
    readme := [MdInline.text "cached readme"]
    fetchedAt := "2023-12-31T01:00:00Z" }

/-- A network on which metadata is fresh and the topics request fails with
404 on every attempt. -/
def netTopicsNotFound : RepoNetwork :=
  { metaOutcomes := fun _ => AttemptOutcome.ok (some sampleMeta) (some "E1")
    topicsOutcomes := fun _ => AttemptOutcome.notFound
    readmeOutcomes := fun _ => AttemptOutcome.ok none none }

/-- A network on which metadata is fresh and the topics request succeeds
with a null payload. -/
def netTopicsNull : RepoNetwork :=
  { metaOutcomes := fun _ => AttemptOutcome.ok (some sampleMeta) (some "E1")
    topicsOutcomes := fun _ => AttemptOutcome.ok none none
    readmeOutcomes := fun _ => AttemptOutcome.ok none none }

/-- A network on which the metadata request answers 304 on the first
attempt. -/
def netNotModified : RepoNetwork :=
  { metaOutcomes := fun _ => AttemptOutcome.notModified
    topicsOutcomes := fun _ => AttemptOutcome.notFound
    readmeOutcomes := fun _ => AttemptOutcome.notFound }

/-- A bare project used by the sort example: only the fields the comparator
and the slug inspect are distinguished. -/
def bareProject (featured : Bool) (stars : Nat) (slug : String) : Project :=
  { slug := slug, title := slug, description := "", owner := "o", repo := slug
    tags := [], stars := stars, updatedAt := "", homepage := none
    htmlUrl := "", defaultBranch := "main", featured := featured }

/-- The featured five-star entry of the sort example. -/
def exFeatured5 : Project := bareProject true 5 "featured-5"

/-- The unfeatured fifty-star entry of the sort example. -/
def exStars50 : Project := bareProject false 50 "stars-50"

/-- The unfeatured ten-star entry of the sort example. -/
def exStars10 : Project := bareProject false 10 "stars-10"

/-!
Theorems.
-/

/-- C3: for every endpoint, when the first two attempts fail transiently,
a success on the third attempt returns the success payload after exactly
the two backoff delays 1000ms and 2000ms in that order, and a transient
failure on the third attempt surfaces that last transient error to the
caller. -/
theorem githubFetch_retry_spec {α : Type} (outcomes : Nat → AttemptOutcome α)
    (endpoint : String) (etagOpt : Option String) (m1 m2 m3 : String)
    (d : Option α) (e : Option String)
    (h0 : outcomes 0 = AttemptOutcome.transientError m1)
    (h1 : outcomes 1 = AttemptOutcome.transientError m2) :
    (outcomes 2 = AttemptOutcome.ok d e →
      githubFetch outcomes endpoint etagOpt =
        (Except.ok ⟨d, e, false⟩, [1000, 2000])) ∧
    (outcomes 2 = AttemptOutcome.transientError m3 →
      githubFetch outcomes endpoint etagOpt =
        (Except.error (FetchError.transient m3), [1000, 2000])) := by
  constructor <;> intro h2 <;>
    simp [githubFetch, githubFetchAux, h0, h1, h2, MAX_RETRIES, INITIAL_RETRY_DELAY_MS]

/-- Witness for C3 at a concrete oracle: two transient failures then a
success yield the payload with delays 1000ms and 2000ms. -/
theorem githubFetch_retry_spec_witness :
    githubFetch (fun i => if i = 0 then AttemptOutcome.transientError "boom1"
        else if i = 1 then AttemptOutcome.transientError "boom2"
        else AttemptOutcome.ok (some (7 : Nat)) (some "etag")) "/repos/o/r" none =
      (Except.ok ⟨some 7, some "etag", false⟩, [1000, 2000]) :=
  (githubFetch_retry_spec _ "/repos/o/r" none "boom1" "boom2" "boom3"
    (some 7) (some "etag") rfl rfl).1 rfl

/-- C4: for every endpoint, a not-found response on the first attempt and a
rate-limit-exhausted response on the first attempt each fail immediately
with the corresponding error, with no backoff delay and no further attempt
(the result is fixed whatever the oracle answers on later attempts). -/
theorem githubFetch_shortCircuit {α : Type} (outcomes : Nat → AttemptOutcome α)
    (endpoint : String) (etagOpt : Option String) :
    (outcomes 0 = AttemptOutcome.notFound →
      githubFetch outcomes endpoint etagOpt =
        (Except.error (FetchError.notFound endpoint), [])) ∧
    (outcomes 0 = AttemptOutcome.rateLimited →
      githubFetch outcomes endpoint etagOpt =
        (Except.error FetchError.rateLimited, [])) := by
  constructor <;> intro h0 <;>
    simp [githubFetch, githubFetchAux, h0, MAX_RETRIES]

/-- Witness for C4 at concrete oracles: a 404 and a rate-limit exhaustion
each surface at once with an empty delay list, regardless of the outcomes
prepared for later attempts. -/
theorem githubFetch_shortCircuit_witness :
    githubFetch (fun i => if i = 0 then AttemptOutcome.notFound
        else AttemptOutcome.ok (some (1 : Nat)) none) "/repos/o/missing" none =
      (Except.error (FetchError.notFound "/repos/o/missing"), []) ∧
    githubFetch (fun i => if i = 0 then AttemptOutcome.rateLimited
        else AttemptOutcome.ok (some (1 : Nat)) none) "/repos/o/r" none =
      (Except.error FetchError.rateLimited, []) :=
  ⟨(githubFetch_shortCircuit _ "/repos/o/missing" none).1 rfl,
   (githubFetch_shortCircuit _ "/repos/o/r" none).2 rfl⟩

/-- C5: with a stored cache record, when the metadata request reports not
modified the produced record's tags are the normalization of the cached
topics with the entry's custom tags, its readme is the cached readme
verbatim, the metadata request is the only network call of the entry, and
no cache record is written. -/
theorem fetchRepo_cacheHit (config : RepoConfig) (c : CacheEntry) (net : RepoNetwork)
    (now : String) (s : FetchSuccess GitHubRepoResponse)
    (hm : (githubFetch net.metaOutcomes (repoEndpoint config.owner config.repo)
        c.etag).1 = Except.ok s)
    (hnm : s.notModified = true) :
    ((fetchRepo config (some c) net now).result.map (fun pr => (pr.1.tags, pr.2)))
      = some (normalizeTags c.topics (config.customTags.getD []), c.readme) ∧
    (fetchRepo config (some c) net now).calls
      = [repoEndpoint config.owner config.repo] ∧
    (fetchRepo config (some c) net now).cacheWrite = none := by
  refine ⟨?_, ?_, ?_⟩ <;> simp [fetchRepo, hm, hnm]

/-- Witness for C5: on a network answering 304 for a cached entry, the tags
and readme come from the stored record, the only call is the metadata
endpoint, and nothing is written. -/
theorem fetchRepo_cacheHit_witness :
    ((fetchRepo sampleConfig (some sampleCache) netNotModified "now").result.map
        (fun pr => (pr.1.tags, pr.2)))
      = some (normalizeTags sampleCache.topics (sampleConfig.customTags.getD []),
          sampleCache.readme) ∧
    (fetchRepo sampleConfig (some sampleCache) netNotModified "now").calls
      = [repoEndpoint sampleConfig.owner sampleConfig.repo] ∧
    (fetchRepo sampleConfig (some sampleCache) netNotModified "now").cacheWrite = none :=
  fetchRepo_cacheHit sampleConfig sampleCache netNotModified "now"
    ⟨none, none, true⟩ rfl rfl

/-- C2 counterexample: a catalog entry whose metadata request returns fresh
data and whose topics request fails (404 on every attempt) does not
produce a record at all: the thrown topics error escapes to the outer
catch and the entry fails, contradicting that a topics failure is never
fatal. -/
theorem fetchRepo_topicsFailure_counterexample :
    (githubFetch netTopicsNotFound.metaOutcomes (repoEndpoint "o" "r")
        (none : Option String)).1
      = Except.ok ⟨some sampleMeta, some "E1", false⟩ ∧
    (githubFetch netTopicsNotFound.topicsOutcomes (topicsEndpoint "o" "r")
        (none : Option String)).1
      = Except.error (FetchError.notFound (topicsEndpoint "o" "r")) ∧
    (fetchRepo sampleConfig none netTopicsNotFound "now").result = none := by
  refine ⟨rfl, rfl, rfl⟩

/-- C2 (amended): when the metadata request returns fresh data and the
topics request completes without throwing but carries no payload, the
entry's topics are the empty list and the entry still produces a record;
a topics request that throws (404 or exhausted retries) instead fails the
entry. -/
theorem fetchRepo_topicsNullData (config : RepoConfig) (cached : Option CacheEntry)
    (net : RepoNetwork) (now : String) (m : GitHubRepoResponse)
    (e te : Option String) (tnm : Bool)
    (hm : (githubFetch net.metaOutcomes (repoEndpoint config.owner config.repo)
        (cached.bind (fun c => c.etag))).1 = Except.ok ⟨some m, e, false⟩)
    (ht : (githubFetch net.topicsOutcomes (topicsEndpoint config.owner config.repo)
        (none : Option String)).1 = Except.ok ⟨none, te, tnm⟩) :
    (fetchRepo config cached net now).result.isSome = true ∧
    ((fetchRepo config cached net now).result.map (fun pr => pr.1.tags))
      = some (normalizeTags [] (config.customTags.getD [])) := by
  constructor <;> simp [fetchRepo, hm, ht]

/-- Witness for C2 (amended): on a network whose topics answer is a null
payload, the entry succeeds and its tags are the normalized custom tags
alone. -/
theorem fetchRepo_topicsNullData_witness :
    (fetchRepo sampleConfig none netTopicsNull "now").result.isSome = true ∧
    ((fetchRepo sampleConfig none netTopicsNull "now").result.map (fun pr => pr.1.tags))
      = some (normalizeTags [] (sampleConfig.customTags.getD [])) :=
  fetchRepo_topicsNullData sampleConfig none netTopicsNull "now"
    sampleMeta (some "E1") none false rfl rfl

/-- C9: for a successful entry built from fresh metadata, the record's
homepage is the falsy-coerced remote homepage (null whenever the remote
homepage is null or empty) and its description is the null-defaulted
remote description (empty whenever the remote description is null). -/
theorem fetchRepo_homepage_description (config : RepoConfig) (cached : Option CacheEntry)
    (net : RepoNetwork) (now : String) (m : GitHubRepoResponse)
    (e : Option String) (t : FetchSuccess GitHubTopicsResponse)
    (hm : (githubFetch net.metaOutcomes (repoEndpoint config.owner config.repo)
        (cached.bind (fun c => c.etag))).1 = Except.ok ⟨some m, e, false⟩)
    (ht : (githubFetch net.topicsOutcomes (topicsEndpoint config.owner config.repo)
        (none : Option String)).1 = Except.ok t) :
    ((fetchRepo config cached net now).result.map (fun pr => pr.1.homepage))
      = some (jsOrNull m.homepage) ∧
    ((fetchRepo config cached net now).result.map (fun pr => pr.1.description))
      = some (jsOr m.description "") ∧
    ((m.homepage = none ∨ m.homepage = some "") →
      ((fetchRepo config cached net now).result.map (fun pr => pr.1.homepage))
        = some none) ∧
    (m.description = none →
      ((fetchRepo config cached net now).result.map (fun pr => pr.1.description))
        = some "") := by
  refine ⟨?_, ?_, ?_, ?_⟩
  · simp [fetchRepo, hm, ht]
  · simp [fetchRepo, hm, ht]
  · rintro (h | h) <;> simp [fetchRepo, hm, ht, jsOrNull, h]
  · intro h
    simp [fetchRepo, hm, ht, jsOr, h]

/-- Witness for C9: on sample metadata whose homepage is the empty string
and whose description is null, the record's homepage is null and its
description is the empty string. -/
theorem fetchRepo_homepage_description_witness :
    ((fetchRepo sampleConfig none netTopicsNull "now").result.map
        (fun pr => pr.1.homepage)) = some none ∧
    ((fetchRepo sampleConfig none netTopicsNull "now").result.map
        (fun pr => pr.1.description)) = some "" :=
  ⟨(fetchRepo_homepage_description sampleConfig none netTopicsNull "now"
      sampleMeta (some "E1") ⟨none, none, false⟩ rfl rfl).2.2.1 (Or.inr rfl),
   (fetchRepo_homepage_description sampleConfig none netTopicsNull "now"
      sampleMeta (some "E1") ⟨none, none, false⟩ rfl rfl).2.2.2 rfl⟩

/-- C10: for a successful entry built from fresh metadata, the record's
updatedAt is pushed_at when that is non-empty and updated_at otherwise,
while the persisted cache record's updatedAt is always updated_at; in
particular the two differ whenever pushed_at is non-empty and distinct
from updated_at. -/
theorem fetchRepo_updatedAt (config : RepoConfig) (cached : Option CacheEntry)
    (net : RepoNetwork) (now : String) (m : GitHubRepoResponse)
    (e : Option String) (t : FetchSuccess GitHubTopicsResponse)
    (hm : (githubFetch net.metaOutcomes (repoEndpoint config.owner config.repo)
        (cached.bind (fun c => c.etag))).1 = Except.ok ⟨some m, e, false⟩)
    (ht : (githubFetch net.topicsOutcomes (topicsEndpoint config.owner config.repo)
        (none : Option String)).1 = Except.ok t) :
    ((fetchRepo config cached net now).result.map (fun pr => pr.1.updatedAt))
      = some (jsOrStr m.pushed_at m.updated_at) ∧
    ((fetchRepo config cached net now).cacheWrite.map (fun ce => ce.updatedAt))
      = some m.updated_at ∧
    (m.pushed_at ≠ "" →
      ((fetchRepo config cached net now).result.map (fun pr => pr.1.updatedAt))
        = some m.pushed_at) ∧
    (m.pushed_at = "" →
      ((fetchRepo config cached net now).result.map (fun pr => pr.1.updatedAt))
        = some m.updated_at) ∧
    ((m.pushed_at ≠ "" ∧ m.pushed_at ≠ m.updated_at) →
      ((fetchRepo config cached net now).result.map (fun pr => pr.1.updatedAt))
        ≠ ((fetchRepo config cached net now).cacheWrite.map (fun ce => ce.updatedAt))) := by
  refine ⟨?_, ?_, ?_, ?_, ?_⟩
  · simp [fetchRepo, hm, ht]
  · simp [fetchRepo, hm, ht]
  · intro h
    simp [fetchRepo, hm, ht, jsOrStr, h]
  · intro h
    simp [fetchRepo, hm, ht, jsOrStr, h]
  · rintro ⟨h1, h2⟩
    simp [fetchRepo, hm, ht, jsOrStr, h1, h2]

/-- Witness for C10: on sample metadata with distinct non-empty pushed_at
and updated_at, the record carries pushed_at while the written cache
record carries updated_at, and the two differ. -/
theorem fetchRepo_updatedAt_witness :
    ((fetchRepo sampleConfig none netTopicsNull "now").result.map
        (fun pr => pr.1.updatedAt)) = some "2024-02-02T00:00:00Z" ∧
    ((fetchRepo sampleConfig none netTopicsNull "now").cacheWrite.map
        (fun ce => ce.updatedAt)) = some "2024-01-01T00:00:00Z" ∧
    ((fetchRepo sampleConfig none netTopicsNull "now").result.map
        (fun pr => pr.1.updatedAt))
      ≠ ((fetchRepo sampleConfig none netTopicsNull "now").cacheWrite.map
        (fun ce => ce.updatedAt)) :=
  ⟨(fetchRepo_updatedAt sampleConfig none netTopicsNull "now" sampleMeta
      (some "E1") ⟨none, none, false⟩ rfl rfl).2.2.1 (by decide),
   (fetchRepo_updatedAt sampleConfig none netTopicsNull "now" sampleMeta
      (some "E1") ⟨none, none, false⟩ rfl rfl).2.1,
   (fetchRepo_updatedAt sampleConfig none netTopicsNull "now" sampleMeta
      (some "E1") ⟨none, none, false⟩ rfl rfl).2.2.2.2 ⟨by decide, by decide⟩⟩

/-- The failure tally vanishes exactly when every entry produced a
record. -/
theorem failCountOf_eq_zero (outs : List FetchRepoOutcome) :
    failCountOf outs = 0 ↔ outs.all (fun o => o.result.isSome) = true := by
  simp [failCountOf, List.length_eq_zero, List.filter_eq_nil_iff, List.all_eq_true,
    Option.isSome_iff_ne_none]

/-- The failure tally is positive exactly when some entry failed. -/
theorem failCountOf_pos (outs : List FetchRepoOutcome) :
    0 < failCountOf outs ↔ outs.any (fun o => o.result.isNone) = true := by
  simp [failCountOf, List.length_pos, List.any_eq_true, Ne, List.filter_eq_nil_iff]

/-- C6: a completed run exits 0 exactly when every catalog entry's item
fetch succeeded and exits non-zero exactly when at least one entry
failed, and the exit status does not depend on the outcomes of the
profile readme fetch or the contribution calendar fetch. -/
theorem mainRun_exit_spec (entries : List EntryEnv) (now : String)
    (p1 p2 : Option Profile) (c1 c2 : Option ContributionsIndex) :
    ((mainRun entries now p1 c1).exitCode = 0 ↔
      (runEntries entries now).all (fun o => o.result.isSome) = true) ∧
    ((mainRun entries now p1 c1).exitCode ≠ 0 ↔
      (runEntries entries now).any (fun o => o.result.isNone) = true) ∧
    (mainRun entries now p1 c1).exitCode = (mainRun entries now p2 c2).exitCode := by
  have hexit : ∀ (pr : Option Profile) (cr : Option ContributionsIndex),
      (mainRun entries now pr cr).exitCode
        = if 0 < failCountOf (runEntries entries now) then 1 else 0 :=
    fun _ _ => rfl
  refine ⟨?_, ?_, ?_⟩
  · rw [hexit, ← failCountOf_eq_zero]
    by_cases h : 0 < failCountOf (runEntries entries now)
    · simp [h, Nat.pos_iff_ne_zero.mp h]
    · simp [h, Nat.eq_zero_of_not_pos h]
  · rw [hexit, ← failCountOf_pos]
    by_cases h : 0 < failCountOf (runEntries entries now) <;> simp [h]
  · rw [hexit, hexit]

/-- The featured-then-stars order is transitive. -/
theorem projectLe_trans (a b c : Project) (hab : projectLe a b = true)
    (hbc : projectLe b c = true) : projectLe a c = true := by
  cases ha : a.featured <;> cases hb : b.featured <;> cases hc : c.featured <;>
    simp [projectLe, projectCmp, ha, hb, hc] at * <;> omega

/-- The featured-then-stars order is total. -/
theorem projectLe_total (a b : Project) :
    (projectLe a b || projectLe b a) = true := by
  cases ha : a.featured <;> cases hb : b.featured <;>
    simp [projectLe, projectCmp, ha, hb] <;> omega

/-- C7: the project list an orchestrator run writes is ordered by the
featured-descending-then-stars-descending order and is a permutation of
the successful results; on the example entries with featured flags
true, false, false and star counts 5, 50 and 10 the written order is the
featured five-star entry, then the fifty-star entry, then the ten-star
entry. -/
theorem mainRun_sortOrder (entries : List EntryEnv) (now : String)
    (p : Option Profile) (c : Option ContributionsIndex) :
    List.Pairwise (fun a b => projectLe a b = true) (mainRun entries now p c).projects ∧
    ((mainRun entries now p c).projects).Perm
      (((runEntries entries now).filterMap (fun o => o.result)).map (fun r => r.1)) ∧
    (sortResults [(exFeatured5, []), (exStars50, []), (exStars10, [])]).map
        (fun r => r.1.slug)
      = ["featured-5", "stars-50", "stars-10"] := by
  have hproj : (mainRun entries now p c).projects
      = (sortResults ((runEntries entries now).filterMap (fun o => o.result))).map
        (fun r : Project × MdDoc => r.1) := rfl
  refine ⟨?_, ?_, ?_⟩
  · rw [hproj]
    have hp : List.Pairwise (fun x y : Project × MdDoc => projectLe x.1 y.1 = true)
        (sortResults ((runEntries entries now).filterMap (fun o => o.result))) :=
      List.sorted_mergeSort
        (fun x y z hxy hyz => projectLe_trans x.1 y.1 z.1 hxy hyz)
        (fun x y => projectLe_total x.1 y.1) _
    exact hp.map (fun r : Project × MdDoc => r.1) (fun x y h => h)
  · rw [hproj]
    exact List.Perm.map (fun r : Project × MdDoc => r.1) (List.mergeSort_perm _ _)
  · simp [sortResults, List.mergeSort, projectLe, projectCmp,
      exFeatured5, exStars50, exStars10, bareProject]

/-- Splitting at the first query or fragment delimiter recovers the path
part of a path-suffix concatenation. -/
theorem splitBeforeQueryFrag_append (p sfx : List Char)
    (hp : p.all (fun c => !(c = '?' || c = '#')) = true)
    (hs : suffixShape sfx = true) :
    splitBeforeQueryFrag (p ++ sfx) = p := by
  induction p with
  | nil =>
    cases sfx with
    | nil => rfl
    | cons c rest =>
      simp [suffixShape] at hs
      rcases hs with h | h <;> simp [splitBeforeQueryFrag, List.takeWhile_cons, h]
  | cons c cs ih =>
    simp [List.all_cons] at hp
    have h := ih (by simp [List.all_eq_true]; exact hp.2)
    simp only [splitBeforeQueryFrag, Bool.not_or] at h
    simp [splitBeforeQueryFrag, List.takeWhile_cons, hp.1.1, hp.1.2, h]

/-- A path that neither starts with a dot-slash nor with a slash is fixed
by path normalization. -/
theorem normalizePathChars_eq_self (p : List Char)
    (h1 : startsWithChars "./" p = false) (h2 : startsWithChars "/" p = false) :
    normalizePathChars p = p := by
  simp [normalizePathChars, h1, h2]

/-- On a plain relative path carrying an optional query or fragment, the
replacer emits the base, a slash and the whole original url. -/
theorem rewriteRelativeUrl_plain (base p sfx : List Char)
    (hp : p.all (fun c => !(c = '?' || c = '#')) = true)
    (hs : suffixShape sfx = true)
    (hdotU : startsWithChars "./" (p ++ sfx) = false)
    (hdotP : startsWithChars "./" p = false)
    (hslashP : startsWithChars "/" p = false) :
    rewriteRelativeUrl base (p ++ sfx) = base ++ '/' :: (p ++ sfx) := by
  unfold rewriteRelativeUrl
  rw [splitBeforeQueryFrag_append p sfx hp hs,
    normalizePathChars_eq_self p hdotP hslashP, hdotU]
  simp [List.drop_left]

/-- On a dot-slash-prefixed relative path carrying an optional query or
fragment, the replacer emits the base, a slash, and the original url with
its dot-slash prefix stripped. -/
theorem rewriteRelativeUrl_dotSlash (base p sfx : List Char)
    (hp : p.all (fun c => !(c = '?' || c = '#')) = true)
    (hs : suffixShape sfx = true) :
    rewriteRelativeUrl base ('.' :: '/' :: (p ++ sfx)) = base ++ '/' :: (p ++ sfx) := by
  unfold rewriteRelativeUrl
  have h1 : splitBeforeQueryFrag ('.' :: '/' :: (p ++ sfx)) = '.' :: '/' :: p := by
    have h := splitBeforeQueryFrag_append ('.' :: '/' :: p) sfx
      (by simp [List.all_cons]; simpa [List.all_eq_true] using hp) hs
    simpa using h
  have h2 : normalizePathChars ('.' :: '/' :: p) = p := by
    simp [normalizePathChars, startsWithChars, List.isPrefixOf]
  have h3 : startsWithChars "./" ('.' :: '/' :: (p ++ sfx)) = true := by
    simp [startsWithChars, List.isPrefixOf]
  rw [h1, h2, h3]
  have h4 : ('.' :: '/' :: (p ++ sfx)).drop (p.length + 2) = (p ++ sfx).drop p.length := rfl
  simp [h4, List.drop_left]

/-- A dot-slash-prefixed url is not treated as absolute. -/
theorem isAbsoluteUrl_dotSlash (rest : List Char) :
    isAbsoluteUrl ('.' :: '/' :: rest) = false := by
  simp [isAbsoluteUrl, startsWithChars, List.isPrefixOf]

/-- C1 (amended): in every document, a relative image reference whose url
is a path (free of query and fragment delimiters) followed by an optional
query or fragment suffix is rewritten to the raw-content base followed by
the path and the untouched suffix, both for plain paths and for paths
prefixed by a dot-slash (which is stripped); paths beginning with a bare
slash are excluded: there the emitted suffix is miscomputed. -/
theorem rewriteReadmeUrls_image_relative (doc : MdDoc) (i : Nat)
    (owner repo branch alt : String) (p sfx : List Char)
    (hp : p.all (fun c => !(c = '?' || c = '#')) = true)
    (hs : suffixShape sfx = true) :
    (startsWithChars "./" (p ++ sfx) = false →
     startsWithChars "./" p = false →
     startsWithChars "/" p = false →
     isAbsoluteUrl (p ++ sfx) = false →
     doc[i]? = some (MdInline.image alt (String.mk (p ++ sfx))) →
     (rewriteReadmeUrls doc owner repo branch)[i]?
       = some (MdInline.image alt
           (rawContentBase owner repo branch ++ "/" ++ String.mk (p ++ sfx)))) ∧
    (doc[i]? = some (MdInline.image alt (String.mk ('.' :: '/' :: (p ++ sfx)))) →
     (rewriteReadmeUrls doc owner repo branch)[i]?
       = some (MdInline.image alt
           (rawContentBase owner repo branch ++ "/" ++ String.mk (p ++ sfx)))) := by
  have hdata : ∀ s t : String, (s ++ t).data = s.data ++ t.data := fun _ _ => rfl
  have hstr : String.mk ((rawContentBase owner repo branch).data ++ '/' :: (p ++ sfx))
      = rawContentBase owner repo branch ++ "/" ++ String.mk (p ++ sfx) := by
    apply String.ext
    simp [hdata]
  constructor
  · intro hdotU hdotP hslashP habs hdoc
    simp only [rewriteReadmeUrls, List.getElem?_map, hdoc, Option.map_some']
    simp only [mdImagePass, habs]
    rw [rewriteRelativeUrl_plain _ p sfx hp hs hdotU hdotP hslashP]
    simp [htmlImgPass, mdLinkPass, hstr]
  · intro hdoc
    simp only [rewriteReadmeUrls, List.getElem?_map, hdoc, Option.map_some']
    simp only [mdImagePass, isAbsoluteUrl_dotSlash]
    rw [rewriteRelativeUrl_dotSlash _ p sfx hp hs]
    simp [htmlImgPass, mdLinkPass, hstr]

/-- Witness for C1 (amended), at the example of the specification: the
image reference with url images/pic.png under owner o, repo r, branch
main is rewritten to the raw-content url, and the dot-slash variant with
a query suffix is rewritten identically with the query preserved. -/
theorem rewriteReadmeUrls_image_relative_witness :
    (rewriteReadmeUrls [MdInline.image "alt" "images/pic.png"] "o" "r" "main")[0]?
      = some (MdInline.image "alt"
          (rawContentBase "o" "r" "main" ++ "/" ++ String.mk "images/pic.png".data)) ∧
    (rewriteReadmeUrls [MdInline.image "alt" "./images/pic.png?x=1"] "o" "r" "main")[0]?
      = some (MdInline.image "alt"
          (rawContentBase "o" "r" "main" ++ "/" ++ String.mk "images/pic.png?x=1".data)) := by
  constructor
  · exact (rewriteReadmeUrls_image_relative [MdInline.image "alt" "images/pic.png"] 0
      "o" "r" "main" "alt" "images/pic.png".data [] (by decide) (by decide)).1
      (by decide) (by decide) (by decide) (by decide) (by simp)
  · exact (rewriteReadmeUrls_image_relative [MdInline.image "alt" "./images/pic.png?x=1"] 0
      "o" "r" "main" "alt" "images/pic.png".data "?x=1".data (by decide) (by decide)).2
      (by simp)

/-- C1 counterexample: on a relative image url beginning with a bare slash
the rewriter does not emit the raw-content base followed by the path; the
leading slash is stripped from the clean path but the suffix offset is
not shifted, so the last path character is emitted twice. -/
theorem rewriteReadmeUrls_slash_counterexample :
    rewriteReadmeUrls [MdInline.image "alt" "/images/pic.png"] "o" "r" "main"
      = [MdInline.image "alt"
          "https://raw.githubusercontent.com/o/r/main/images/pic.pngg"] ∧
    rewriteReadmeUrls [MdInline.image "alt" "/images/pic.png"] "o" "r" "main"
      ≠ [MdInline.image "alt"
          (rawContentBase "o" "r" "main" ++ "/images/pic.png")] := by
  constructor
  · rfl
  · decide

/-- A class character is not an ASCII uppercase letter, so lowercasing
fixes it. -/
theorem jsLowerChar_of_isTagChar (c : Char) (h : isTagChar c = true) :
    jsLowerChar c = c := by
  have hu : isAsciiUpper c = false := by
    simp [isTagChar, charCode] at h
    simp [isAsciiUpper, charCode]
    omega
  simp [jsLowerChar, hu]

/-- A class character is not trimmed whitespace. -/
theorem jsIsSpace_of_isTagChar (c : Char) (h : isTagChar c = true) :
    jsIsSpace c = false := by
  simp [isTagChar, charCode] at h
  simp [jsIsSpace, charCode]
  omega

/-- The class replacement fixes a class character. -/
theorem hyphenizeChar_of_isTagChar (c : Char) (h : isTagChar c = true) :
    hyphenizeChar c = c := by
  simp [hyphenizeChar, h]

/-- The class replacement always lands in the class. -/
theorem isTagChar_hyphenizeChar (c : Char) : isTagChar (hyphenizeChar c) = true := by
  by_cases h : isTagChar c = true
  · simp [hyphenizeChar, h]
  · simp [hyphenizeChar, h]
    decide

/-- Dropping while a predicate fails everywhere drops nothing. -/
theorem dropWhile_all_false {α : Type} (p : α → Bool) (l : List α)
    (h : ∀ c ∈ l, p c = false) : l.dropWhile p = l := by
  cases l with
  | nil => rfl
  | cons c rest => simp [List.dropWhile_cons, h c (by simp)]

/-- Trimming fixes a list of class characters. -/
theorem trimChars_of_all_isTagChar (l : List Char) (h : l.all isTagChar = true) :
    trimChars l = l := by
  simp [List.all_eq_true] at h
  have h1 : l.dropWhile jsIsSpace = l :=
    dropWhile_all_false _ _ (fun c hc => jsIsSpace_of_isTagChar c (h c hc))
  have h2 : l.reverse.dropWhile jsIsSpace = l.reverse :=
    dropWhile_all_false _ _ (fun c hc => jsIsSpace_of_isTagChar c (h c (by simpa using hc)))
  simp [trimChars, h1, h2]

/-- The hyphen-run collapse fixes a run-free list. -/
theorem collapseHyphens_of_noHyphenRun : ∀ l : List Char,
    noHyphenRun l = true → collapseHyphens l = l
  | [] => fun _ => rfl
  | [c] => fun _ => rfl
  | c1 :: c2 :: rest => fun h => by
    simp [noHyphenRun] at h
    have hne : (c1 = '-' && c2 = '-') = false := by
      rcases h.1 with h1 | h1 <;> simp [h1]
    have ih := collapseHyphens_of_noHyphenRun (c2 :: rest) h.2
    simp [collapseHyphens, hne, ih]

/-- Stripping the edge hyphens fixes a list with clean edges. -/
theorem stripEdgeHyphens_of_clean (l : List Char)
    (hh : (l.head? == some '-') = false) (hl : (l.getLast? == some '-') = false) :
    stripEdgeHyphens l = l := by
  simp at hh hl
  simp [stripEdgeHyphens, dropOneLeadingHyphen, dropOneTrailingHyphen, hh, hl]

/-- The per-tag chain fixes a canonical list. -/
theorem normalizeTagChars_of_canonical (l : List Char)
    (h : canonicalChars l = true) : normalizeTagChars l = l := by
  simp [canonicalChars, Bool.and_eq_true] at h
  obtain ⟨⟨⟨hall, hrun⟩, hh⟩, hl⟩ := h
  have hmap : l.map jsLowerChar = l := by
    have hfix : ∀ c ∈ l, jsLowerChar c = c := fun c hc =>
      jsLowerChar_of_isTagChar c (hall c hc)
    calc l.map jsLowerChar = l.map id := List.map_congr_left hfix
    _ = l := List.map_id l
  have hmap2 : l.map hyphenizeChar = l := by
    have hfix : ∀ c ∈ l, hyphenizeChar c = c := fun c hc =>
      hyphenizeChar_of_isTagChar c (hall c hc)
    calc l.map hyphenizeChar = l.map id := List.map_congr_left hfix
    _ = l := List.map_id l
  rw [normalizeTagChars, hmap,
    trimChars_of_all_isTagChar l (List.all_eq_true.mpr hall), hmap2,
    collapseHyphens_of_noHyphenRun l hrun]
  exact stripEdgeHyphens_of_clean l (by simp [hh]) (by simp [hl])

/-- Collapsing keeps only characters of the input. -/
theorem mem_collapseHyphens : ∀ l : List Char, ∀ c ∈ collapseHyphens l, c ∈ l
  | [] => by simp [collapseHyphens]
  | [a] => by simp [collapseHyphens]
  | c1 :: c2 :: rest => by
    intro c hc
    by_cases h : (c1 = '-' && c2 = '-') = true
    · rw [collapseHyphens, if_pos h] at hc
      exact List.mem_cons_of_mem c1 (mem_collapseHyphens (c2 :: rest) c hc)
    · rw [collapseHyphens, if_neg h] at hc
      rcases List.mem_cons.mp hc with h1 | h1
      · exact h1 ▸ List.mem_cons_self c1 (c2 :: rest)
      · exact List.mem_cons_of_mem c1 (mem_collapseHyphens (c2 :: rest) c h1)

/-- A collapsed non-empty list headed by a non-hyphen keeps its head. -/
theorem collapseHyphens_head_ne (c : Char) (rest : List Char) (hc : ¬ c = '-') :
    (collapseHyphens (c :: rest)).head? = some c := by
  cases rest with
  | nil => rfl
  | cons r rs =>
    have h : (c = '-' && r = '-') = false := by simp [hc]
    rw [collapseHyphens, if_neg (by simp [hc])]
    rfl

/-- Collapsing a non-empty list yields a non-empty list. -/
theorem collapseHyphens_ne_nil : ∀ (c : Char) (rest : List Char),
    collapseHyphens (c :: rest) ≠ []
  | c, [] => by simp [collapseHyphens]
  | c, r :: rs => by
    by_cases h : (c = '-' && r = '-') = true
    · rw [collapseHyphens, if_pos h]
      exact collapseHyphens_ne_nil r rs
    · rw [collapseHyphens, if_neg h]
      simp

/-- Collapsing establishes the run-free invariant. -/
theorem noHyphenRun_collapseHyphens : ∀ l : List Char,
    noHyphenRun (collapseHyphens l) = true
  | [] => rfl
  | [c] => rfl
  | c1 :: c2 :: rest => by
    by_cases h : (c1 = '-' && c2 = '-') = true
    · rw [collapseHyphens, if_pos h]
      exact noHyphenRun_collapseHyphens (c2 :: rest)
    · rw [collapseHyphens, if_neg h]
      have ih := noHyphenRun_collapseHyphens (c2 :: rest)
      rcases hx : collapseHyphens (c2 :: rest) with _ | ⟨x, xs⟩
      · exact absurd hx (collapseHyphens_ne_nil c2 rest)
      · rw [hx] at ih
        simp only [noHyphenRun, Bool.and_eq_true]
        refine ⟨?_, ih⟩
        by_cases hc2 : c2 = '-'
        · have hc1 : ¬ c1 = '-' := by
            intro hc1
            exact h (by simp [hc1, hc2])
          simp [hc1]
        · have hhead := collapseHyphens_head_ne c2 rest hc2
          rw [hx] at hhead
          simp at hhead
          simp [hhead, hc2]

/-- The run-free invariant passes to the tail. -/
theorem noHyphenRun_tail (c : Char) (l : List Char)
    (h : noHyphenRun (c :: l) = true) : noHyphenRun l = true := by
  cases l with
  | nil => rfl
  | cons x xs =>
    simp only [noHyphenRun, Bool.and_eq_true] at h
    exact h.2

/-- The run-free invariant survives dropping the last element. -/
theorem noHyphenRun_dropLast : ∀ l : List Char,
    noHyphenRun l = true → noHyphenRun l.dropLast = true
  | [] => fun _ => rfl
  | [c] => fun _ => rfl
  | c1 :: c2 :: rest => fun h => by
    simp only [noHyphenRun, Bool.and_eq_true] at h
    have ih := noHyphenRun_dropLast (c2 :: rest) h.2
    cases rest with
    | nil => rfl
    | cons r rs =>
      have hdl : (c1 :: c2 :: r :: rs).dropLast = c1 :: (c2 :: r :: rs).dropLast := rfl
      rw [hdl]
      have hdl2 : (c2 :: r :: rs).dropLast = c2 :: (r :: rs).dropLast := rfl
      rw [hdl2] at ih ⊢
      simp only [noHyphenRun, Bool.and_eq_true]
      exact ⟨h.1, ih⟩

/-- After the leading strip of a run-free list the head is not a hyphen. -/
theorem head_dropOneLeadingHyphen (l : List Char) (h : noHyphenRun l = true) :
    ((dropOneLeadingHyphen l).head? == some '-') = false := by
  cases l with
  | nil => rfl
  | cons c rest =>
    by_cases hc : c = '-'
    · rw [dropOneLeadingHyphen, if_pos (by simp [hc])]
      cases rest with
      | nil => rfl
      | cons r rs =>
        simp only [noHyphenRun, Bool.and_eq_true] at h
        have hr : ¬ r = '-' := by
          have h1 := h.1
          simp [hc] at h1
          exact h1
        simp [hr]
    · rw [dropOneLeadingHyphen, if_neg (by simp [hc])]
      simp [hc]

/-- Dropping the final hyphen of a run-free list does not expose another
hyphen at the end. -/
theorem getLast_dropLast_ne : ∀ l : List Char, noHyphenRun l = true →
    l.getLast? = some '-' → (l.dropLast.getLast? == some '-') = false
  | [] => by
    intro _ h
    simp at h
  | [c] => by
    intro _ _
    rfl
  | c1 :: c2 :: rest => by
    intro hnr hl
    simp only [noHyphenRun, Bool.and_eq_true] at hnr
    cases rest with
    | nil =>
      have hc2 : c2 = '-' := by simpa using hl
      have hc1 : ¬ c1 = '-' := by
        have h1 := hnr.1
        simp [hc2] at h1
        exact h1
      simp [hc1]
    | cons r rs =>
      have hl2 : (c2 :: r :: rs).getLast? = some '-' := by
        rw [← List.getLast?_cons_cons]
        exact hl
      have ih := getLast_dropLast_ne (c2 :: r :: rs) hnr.2 hl2
      have hdl : (c1 :: c2 :: r :: rs).dropLast = c1 :: (c2 :: r :: rs).dropLast := rfl
      have hdl2 : (c2 :: r :: rs).dropLast = c2 :: (r :: rs).dropLast := rfl
      rw [hdl, hdl2]
      rw [hdl2] at ih
      rw [List.getLast?_cons_cons]
      exact ih

/-- Dropping the last element does not change a non-hyphen head. -/
theorem head_dropLast_clean (l : List Char) (h : (l.head? == some '-') = false) :
    (l.dropLast.head? == some '-') = false := by
  cases l with
  | nil => rfl
  | cons c rest =>
    cases rest with
    | nil => rfl
    | cons r rs =>
      have hdl : (c :: r :: rs).dropLast = c :: (r :: rs).dropLast := rfl
      rw [hdl]
      simpa using h

/-- Stripping the edges of a run-free list of class characters yields a
canonical list. -/
theorem stripEdgeHyphens_canonical (l : List Char) (hall : l.all isTagChar = true)
    (hnr : noHyphenRun l = true) :
    canonicalChars (stripEdgeHyphens l) = true := by
  have hallY : (dropOneLeadingHyphen l).all isTagChar = true := by
    rw [dropOneLeadingHyphen]
    by_cases hc : l.head? = some '-'
    · rw [if_pos hc]
      exact List.all_eq_true.mpr fun x hx =>
        List.all_eq_true.mp hall x ((List.tail_sublist l).subset hx)
    · rw [if_neg hc]
      exact hall
  have hnrY : noHyphenRun (dropOneLeadingHyphen l) = true := by
    rw [dropOneLeadingHyphen]
    by_cases hc : l.head? = some '-'
    · rw [if_pos hc]
      cases l with
      | nil => rfl
      | cons c rest => exact noHyphenRun_tail c rest hnr
    · rw [if_neg hc]
      exact hnr
  have hheadY : ((dropOneLeadingHyphen l).head? == some '-') = false :=
    head_dropOneLeadingHyphen l hnr
  rw [stripEdgeHyphens]
  set Y := dropOneLeadingHyphen l with hY
  rw [dropOneTrailingHyphen]
  by_cases hc : Y.getLast? = some '-'
  · rw [if_pos hc]
    have hallZ : Y.dropLast.all isTagChar = true :=
      List.all_eq_true.mpr fun x hx =>
        List.all_eq_true.mp hallY x (List.mem_of_mem_dropLast hx)
    have hnrZ := noHyphenRun_dropLast Y hnrY
    have hheadZ := head_dropLast_clean Y hheadY
    have hlastZ := getLast_dropLast_ne Y hnrY hc
    simp [canonicalChars, hallZ, hnrZ]
    constructor
    · simpa using hheadZ
    · simpa using hlastZ
  · rw [if_neg hc]
    simp [canonicalChars, hallY, hnrY]
    constructor
    · simpa using hheadY
    · simpa using hc

/-- The per-tag chain always lands in the canonical shape. -/
theorem canonicalChars_normalizeTagChars (s : List Char) :
    canonicalChars (normalizeTagChars s) = true := by
  have hall : ((trimChars (s.map jsLowerChar)).map hyphenizeChar).all isTagChar = true := by
    rw [List.all_map]
    exact List.all_eq_true.mpr fun x _ => isTagChar_hyphenizeChar x
  have hallC : (collapseHyphens ((trimChars (s.map jsLowerChar)).map hyphenizeChar)).all
      isTagChar = true :=
    List.all_eq_true.mpr fun x hx =>
      List.all_eq_true.mp hall x (mem_collapseHyphens _ x hx)
  exact stripEdgeHyphens_canonical _ hallC (noHyphenRun_collapseHyphens _)

/-- Deduplication emits only elements of its input. -/
theorem mem_seenDedup : ∀ (seen l : List String), ∀ y ∈ seenDedup seen l, y ∈ l
  | _, [] => by simp [seenDedup]
  | seen, x :: xs => by
    intro y hy
    rw [seenDedup] at hy
    by_cases hx : x ∈ seen
    · rw [if_pos hx] at hy
      exact List.mem_cons_of_mem x (mem_seenDedup seen xs y hy)
    · rw [if_neg hx] at hy
      rcases List.mem_cons.mp hy with h | h
      · exact h ▸ List.mem_cons_self x xs
      · exact List.mem_cons_of_mem x (mem_seenDedup (x :: seen) xs y h)

/-- Deduplication never emits an element it has already seen. -/
theorem not_mem_seen_of_mem_seenDedup : ∀ (seen l : List String),
    ∀ y ∈ seenDedup seen l, y ∉ seen
  | _, [] => by simp [seenDedup]
  | seen, x :: xs => by
    intro y hy
    rw [seenDedup] at hy
    by_cases hx : x ∈ seen
    · rw [if_pos hx] at hy
      exact not_mem_seen_of_mem_seenDedup seen xs y hy
    · rw [if_neg hx] at hy
      rcases List.mem_cons.mp hy with h | h
      · exact h ▸ hx
      · exact fun hin =>
          not_mem_seen_of_mem_seenDedup (x :: seen) xs y h (List.mem_cons_of_mem x hin)

/-- Deduplication emits no duplicates. -/
theorem nodup_seenDedup : ∀ (seen l : List String), (seenDedup seen l).Nodup
  | _, [] => List.nodup_nil
  | seen, x :: xs => by
    rw [seenDedup]
    by_cases hx : x ∈ seen
    · rw [if_pos hx]
      exact nodup_seenDedup seen xs
    · rw [if_neg hx]
      refine List.nodup_cons.mpr ⟨?_, nodup_seenDedup (x :: seen) xs⟩
      intro hmem
      exact not_mem_seen_of_mem_seenDedup (x :: seen) xs x hmem (List.mem_cons_self x seen)

/-- Deduplication fixes a duplicate-free list of unseen elements. -/
theorem seenDedup_of_nodup : ∀ (seen l : List String), l.Nodup →
    (∀ x ∈ l, x ∉ seen) → seenDedup seen l = l
  | _, [] => by simp [seenDedup]
  | seen, x :: xs => fun hnd hns => by
    rw [seenDedup, if_neg (hns x (List.mem_cons_self x xs))]
    have htail : seenDedup (x :: seen) xs = xs := by
      refine seenDedup_of_nodup (x :: seen) xs (List.nodup_cons.mp hnd).2 ?_
      intro y hy hmem
      rcases List.mem_cons.mp hmem with h | h
      · exact (List.nodup_cons.mp hnd).1 (h ▸ hy)
      · exact hns y (List.mem_cons_of_mem x hy) h
    rw [htail]

/-- Character codes determine characters. -/
theorem charCode_inj (a b : Char) (h : charCode a = charCode b) : a = b :=
  Char.ext (UInt32.toNat.inj h)

/-- The lexicographic character-list order is total. -/
theorem strLeChars_total : ∀ a b : List Char, (strLeChars a b || strLeChars b a) = true
  | [], _ => by simp [strLeChars]
  | _ :: _, [] => by simp [strLeChars]
  | a :: as, b :: bs => by
    by_cases hab : a = b
    · subst hab
      rw [strLeChars, strLeChars, if_pos rfl, if_pos rfl]
      exact strLeChars_total as bs
    · have hcode : charCode a ≠ charCode b := fun h => hab (charCode_inj a b h)
      rw [strLeChars, strLeChars, if_neg hab, if_neg (Ne.symm hab)]
      simp
      omega

/-- The lexicographic character-list order is transitive. -/
theorem strLeChars_trans : ∀ a b c : List Char, strLeChars a b = true →
    strLeChars b c = true → strLeChars a c = true
  | [], _, _ => by simp [strLeChars]
  | _ :: _, [], _ => by simp [strLeChars]
  | _ :: _, _ :: _, [] => by simp [strLeChars]
  | x :: xs, y :: ys, z :: zs => fun hab hbc => by
    rw [strLeChars] at hab hbc ⊢
    by_cases hxy : x = y <;> by_cases hyz : y = z
    · subst hxy
      subst hyz
      rw [if_pos rfl] at hab hbc ⊢
      exact strLeChars_trans xs ys zs hab hbc
    · subst hxy
      rw [if_neg hyz] at hbc ⊢
      exact hbc
    · subst hyz
      rw [if_neg hxy] at hab ⊢
      exact hab
    · rw [if_neg hxy] at hab
      rw [if_neg hyz] at hbc
      have hxz : ¬ x = z := by
        intro h
        subst h
        simp at hab hbc
        omega
      rw [if_neg hxz]
      simp at hab hbc ⊢
      omega

/-- The string order of the sort is transitive. -/
theorem strLe_trans (a b c : String) (hab : strLe a b = true)
    (hbc : strLe b c = true) : strLe a c = true :=
  strLeChars_trans a.data b.data c.data hab hbc

/-- The string order of the sort is total. -/
theorem strLe_total (a b : String) : (strLe a b || strLe b a) = true :=
  strLeChars_total a.data b.data

/-- C8: tag normalization is idempotent (its output is a fixed point), and
for every pair of input lists the output is sorted in the lexicographic
string order, duplicate-free, and every element is a non-empty string of
class characters [a-z0-9-] with no leading or trailing hyphen. -/
theorem normalizeTags_spec (topics customTags : List String) :
    normalizeTags (normalizeTags topics customTags) [] = normalizeTags topics customTags ∧
    List.Pairwise (fun a b => strLe a b = true) (normalizeTags topics customTags) ∧
    (normalizeTags topics customTags).Nodup ∧
    (normalizeTags topics customTags).all isNormalizedTag = true := by
  have hout : normalizeTags topics customTags
      = ((dedupKeepFirst ((topics ++ customTags).map normalizeTag)).filter
          (fun s => s ≠ "")).mergeSort strLe := rfl
  set flt := (dedupKeepFirst ((topics ++ customTags).map normalizeTag)).filter
    (fun s => s ≠ "") with hflt
  have hsorted : List.Pairwise (fun a b => strLe a b = true) (flt.mergeSort strLe) :=
    List.sorted_mergeSort strLe_trans strLe_total flt
  have hperm : (flt.mergeSort strLe).Perm flt := List.mergeSort_perm flt strLe
  have hndflt : flt.Nodup :=
    (nodup_seenDedup [] ((topics ++ customTags).map normalizeTag)).filter _
  have hndout : (flt.mergeSort strLe).Nodup := hperm.symm.nodup hndflt
  have hmem : ∀ x ∈ flt.mergeSort strLe, (∃ t : String, x = normalizeTag t) ∧ x ≠ "" := by
    intro x hx
    have hx1 : x ∈ flt := hperm.subset hx
    have hx2 : x ≠ "" := by simpa using List.of_mem_filter hx1
    have hx3 : x ∈ dedupKeepFirst ((topics ++ customTags).map normalizeTag) :=
      List.mem_of_mem_filter hx1
    have hx4 : x ∈ (topics ++ customTags).map normalizeTag :=
      mem_seenDedup [] _ x hx3
    obtain ⟨t, _, ht⟩ := List.mem_map.mp hx4
    exact ⟨⟨t, ht.symm⟩, hx2⟩
  have hcanonData : ∀ x ∈ flt.mergeSort strLe, canonicalChars x.data = true := by
    intro x hx
    obtain ⟨⟨t, ht⟩, _⟩ := hmem x hx
    have hdata : x.data = normalizeTagChars t.data := congrArg String.data ht
    rw [hdata]
    exact canonicalChars_normalizeTagChars t.data
  have hfix : ∀ x ∈ flt.mergeSort strLe, normalizeTag x = x := by
    intro x hx
    apply String.ext
    show normalizeTagChars x.data = x.data
    exact normalizeTagChars_of_canonical x.data (hcanonData x hx)
  refine ⟨?_, hout ▸ hsorted, hout ▸ hndout, ?_⟩
  · rw [hout]
    simp only [normalizeTags, List.append_nil]
    have hmap : (flt.mergeSort strLe).map normalizeTag = flt.mergeSort strLe := by
      calc (flt.mergeSort strLe).map normalizeTag
          = (flt.mergeSort strLe).map id := List.map_congr_left hfix
      _ = flt.mergeSort strLe := List.map_id _
    rw [hmap]
    rw [dedupKeepFirst, seenDedup_of_nodup [] _ hndout (by simp)]
    rw [List.filter_eq_self.mpr (fun x hx => by simpa using (hmem x hx).2)]
    exact List.mergeSort_of_sorted hsorted
  · rw [hout]
    refine List.all_eq_true.mpr fun x hx => ?_
    have hc := hcanonData x hx
    have hne : x.data ≠ [] := by
      intro hD
      exact (hmem x hx).2 (String.ext (by simp [hD]))
    simp [canonicalChars, Bool.and_eq_true] at hc
    have h1 := hc.1.1.1
    have h2 := hc.1.2
    have h3 := hc.2
    simp [isNormalizedTag, List.all_eq_true, hne, h2, h3]
    exact h1

end GithubSync
